import Mathlib

set_option maxRecDepth 8000

/-! Shallow embedding of the Fitness_Tracker service. The repository holds
two near-duplicate revisions of the same express service:
`src/src/index.ts` (called V0 below) and `src/unnamed/part_000` (called V1).
The azle `StableBTreeMap` stores are modelled as association lists kept in
key order; the nondeterministic `uuidv4()` and `new Date()` values produced
inside a handler are passed in as explicit `freshId` / `now` arguments.
Every error response of a handler occurs before any store write, so a
handler is embedded as a function returning `Except Err State`: an `error`
result means the handler answered with that error kind and left every store
unchanged. JS numbers carried by `duration` and `points` are modelled as
integers. -/

namespace FitTrack

/-- Error kinds of the spec, mapped from the HTTP error responses of the
handlers (400 invalid-input / invalid-email / self-follow messages,
404 not-found messages, 409 conflict messages). -/
inductive Err where
  | invalidInput
  | invalidEmail
  | notFound
  | duplicateEmail
  | alreadyJoined
  | alreadyFollowing
  | selfFollow
  | followerNotFound
  | followingNotFound
deriving DecidableEq, Repr

deriving instance DecidableEq for Except

/-- The `User` class of both revisions (the V1 password hash is omitted:
no claim mentions it). `createdAt` records the `new Date()` instant. -/
structure User where
  id : String
  name : String
  email : String
  points : Int
  createdAt : Nat
deriving DecidableEq, Repr

/-- The `Activity` class of both revisions (`ty` is the `type` field). -/
structure Activity where
  id : String
  userId : String
  ty : String
  duration : Int
  date : String
  createdAt : Nat
deriving DecidableEq, Repr

/-- The `Challenge` class of both revisions (`descr` is `description`). -/
structure Challenge where
  id : String
  creatorId : String
  title : String
  descr : String
  participants : List String
  createdAt : Nat
deriving DecidableEq, Repr

/-- The `Follow` class of both revisions. -/
structure Follow where
  id : String
  followerId : String
  followingId : String
  createdAt : Nat
deriving DecidableEq, Repr

/-- The key order of the stable maps: lexicographic on the character
list (`String.lt`; spelled out over `String.data` so that it evaluates
inside the kernel). -/
def strLt (a b : String) : Prop := a.data < b.data

instance (a b : String) : Decidable (strLt a b) :=
  inferInstanceAs (Decidable (a.data < b.data))

/-- `StableBTreeMap.get`: first entry with the given key. -/
def mapGet (k : String) : List (String × α) → Option α
  | [] => none
  | (k', v) :: rest => if k = k' then some v else mapGet k rest

/-- `StableBTreeMap.insert`: insert or overwrite, keeping key order. -/
def mapInsert (k : String) (v : α) : List (String × α) → List (String × α)
  | [] => [(k, v)]
  | (k', v') :: rest =>
    if strLt k k' then (k, v) :: (k', v') :: rest
    else if k = k' then (k, v) :: rest
    else (k', v') :: mapInsert k v rest

/-- The set (list) of stored keys of a map. -/
def keysOf (m : List (String × α)) : List String := m.map Prod.fst

/-- `StableBTreeMap.values()`: all records in key order. -/
def valuesOf (m : List (String × α)) : List α := m.map Prod.snd

/-- The four stable maps `usersStorage`, `activitiesStorage`,
`challengesStorage`, `followsStorage`. -/
structure State where
  users : List (String × User)
  activities : List (String × Activity)
  challenges : List (String × Challenge)
  follows : List (String × Follow)
deriving DecidableEq, Repr

def emptyState : State := ⟨[], [], [], []⟩

/-- Split a character list at the first occurrence of `sep`; `none` when
`sep` does not occur. -/
def breakAt (sep : Char) : List Char → Option (List Char × List Char)
  | [] => none
  | c :: rest =>
    if c = sep then some ([], rest)
    else
      match breakAt sep rest with
      | some (l, r) => some (c :: l, r)
      | none => none

/-- The email regex of both revisions, anchored
caret [^ws@]+ at [^ws@]+ dot [^ws@]+ dollar: no whitespace anywhere,
exactly one at-sign with a nonempty local part, and a dot inside the
domain with at least one character on each side. -/
def validEmail (e : String) : Bool :=
  let cs := e.toList
  (cs.all fun c => !c.isWhitespace) &&
    match breakAt '@' cs with
    | some (lp, dom) =>
      (!lp.isEmpty) && (!dom.isEmpty) && (!dom.contains '@') &&
        ((dom.drop 1).dropLast.contains '.')
    | none => false

/-- `POST /users` of V0 and `POST /register` of V1 (identical core logic):
validate presence, email syntax, then scan all users for a case-sensitive
email match; on success insert a fresh user with `points = 0`. -/
def register (freshId : String) (now : Nat) (name email : String)
    (st : State) : Except Err State :=
  if name = "" ∨ email = "" then .error .invalidInput
  else if validEmail email then
    if (valuesOf st.users).any (fun u => u.email == email) then
      .error .duplicateEmail
    else
      .ok { st with
              users := mapInsert freshId ⟨freshId, name, email, 0, now⟩ st.users }
  else .error .invalidEmail

/-- `POST /activities` of both revisions: the fields are falsy-checked
(so a duration of `0` is rejected as missing but a negative duration
passes), the user must exist, then the activity is inserted and
`duration` is added to the user's points (1 point per minute). -/
def recordActivity (freshId : String) (now : Nat) (userId ty : String)
    (duration : Int) (date : String) (st : State) : Except Err State :=
  if userId = "" ∨ ty = "" ∨ duration = 0 ∨ date = "" then .error .invalidInput
  else
    match mapGet userId st.users with
    | none => .error .notFound
    | some u =>
      .ok { st with
              activities :=
                mapInsert freshId ⟨freshId, userId, ty, duration, date, now⟩
                  st.activities,
              users :=
                mapInsert u.id { u with points := u.points + duration } st.users }

/-- `POST /challenges` of both revisions. -/
def createChallenge (freshId : String) (now : Nat)
    (creatorId title descr : String) (st : State) : Except Err State :=
  if creatorId = "" ∨ title = "" ∨ descr = "" then .error .invalidInput
  else
    match mapGet creatorId st.users with
    | none => .error .notFound
    | some _ =>
      .ok { st with
              challenges :=
                mapInsert freshId ⟨freshId, creatorId, title, descr, [], now⟩
                  st.challenges }

/-- `POST /challenges/:challengeId/join` of V0 (`src/src/index.ts`):
challenge lookup, user lookup, a second challenge lookup, then an
unconditional push of the user id — V0 has no already-joined check. -/
def joinV0 (challengeId userId : String) (st : State) : Except Err State :=
  if userId = "" then .error .invalidInput
  else
    match mapGet challengeId st.challenges with
    | none => .error .notFound
    | some _ =>
      match mapGet userId st.users with
      | none => .error .notFound
      | some _ =>
        match mapGet challengeId st.challenges with
        | none => .error .notFound
        | some c =>
          .ok { st with
                  challenges :=
                    mapInsert c.id
                      { c with participants := c.participants ++ [userId] }
                      st.challenges }

/-- `POST /challenges/:challengeId/join` of V1 (`src/unnamed/part_000`):
challenge lookup, user lookup, `participants.includes(userId)` check
(409 already joined), then push and insert. -/
def joinV1 (challengeId userId : String) (st : State) : Except Err State :=
  if userId = "" then .error .invalidInput
  else
    match mapGet challengeId st.challenges with
    | none => .error .notFound
    | some c =>
      match mapGet userId st.users with
      | none => .error .notFound
      | some _ =>
        if userId ∈ c.participants then .error .alreadyJoined
        else
          .ok { st with
                  challenges :=
                    mapInsert c.id
                      { c with participants := c.participants ++ [userId] }
                      st.challenges }

/-- `POST /follows` of V0 (`src/src/index.ts`): follower lookup (404),
self-follow check (400), following lookup (404), then insert — V0 has no
already-following scan, and both 404 responses carry the same message, so
both are the plain not-found kind. -/
def followV0 (freshId : String) (now : Nat) (followerId followingId : String)
    (st : State) : Except Err State :=
  if followerId = "" ∨ followingId = "" then .error .invalidInput
  else
    match mapGet followerId st.users with
    | none => .error .notFound
    | some _ =>
      if followerId = followingId then .error .selfFollow
      else
        match mapGet followingId st.users with
        | none => .error .notFound
        | some _ =>
          .ok { st with
                  follows :=
                    mapInsert freshId ⟨freshId, followerId, followingId, now⟩
                      st.follows }

/-- `POST /follows` of V1 (`src/unnamed/part_000`): presence check,
self-follow check, follower lookup, following lookup (distinct 404
messages), scan of all follows for the same directed pair (409), then
insert. -/
def followV1 (freshId : String) (now : Nat) (followerId followingId : String)
    (st : State) : Except Err State :=
  if followerId = "" ∨ followingId = "" then .error .invalidInput
  else if followerId = followingId then .error .selfFollow
  else
    match mapGet followerId st.users with
    | none => .error .followerNotFound
    | some _ =>
      match mapGet followingId st.users with
      | none => .error .followingNotFound
      | some _ =>
        if (valuesOf st.follows).any
            (fun f => f.followerId == followerId && f.followingId == followingId)
        then .error .alreadyFollowing
        else
          .ok { st with
                  follows :=
                    mapInsert freshId ⟨freshId, followerId, followingId, now⟩
                      st.follows }

/-- Stable insertion step: `x` is placed after every element `y` that the
comparator lets stay in front (`le y x`). -/
def insBy (le : α → α → Bool) (x : α) : List α → List α
  | [] => [x]
  | y :: rest => if le y x then y :: insBy le x rest else x :: y :: rest

/-- Stable sort: elements are inserted left to right, each behind the
elements it does not strictly beat, so equal elements keep their input
order — the guarantee ES2019 gives for `Array.prototype.sort`. -/
def stableSortBy (le : α → α → Bool) (l : List α) : List α :=
  l.foldl (fun acc x => insBy le x acc) []

/-- The V0 leaderboard comparator `(a, b) => b.points - a.points`:
`y` may stay in front of `x` when `x.points` does not exceed `y.points`. -/
def jsSortByPointsDesc (l : List User) : List User :=
  stableSortBy (fun y x => decide (x.points ≤ y.points)) l

/-- `GET /leaderboard` of V0 (`src/src/index.ts`): all users in key order,
sorted descending by points with the stable JS sort, then `slice(0, 10)`.
There are no query parameters. -/
def leaderboard (st : State) : List User :=
  (jsSortByPointsDesc (valuesOf st.users)).take 10

/-- Modelled from the spec's words for comparison with `leaderboard`
(claim C4): rank descending by points, ties by creation instant
(insertion order), truncate to `size`, then window by
`offset = (page - 1) * limit` and `limit`. -/
def specLe (a b : User) : Bool :=
  decide (b.points < a.points) ||
    (decide (b.points = a.points) && decide (a.createdAt ≤ b.createdAt))

/-- Modelled from the spec's words (claim C4): the parameterised
`rank(size, page, limit)` the spec describes. -/
def rankSpec (size page limit : Nat) (st : State) : List User :=
  (((stableSortBy specLe (valuesOf st.users)).take size).drop
      ((page - 1) * limit)).take limit

/-- Comparator of the amended claim C4: descending points, ties by id
(the store key, hence the enumeration order of `values()`). -/
def idLe (a b : User) : Bool :=
  decide (b.points < a.points) ||
    (decide (b.points = a.points) && !decide (strLt b.id a.id))

/-- The amended-claim ranking: stable descending sort with ties in id
order, first 10 entries. -/
def rankAmended (st : State) : List User :=
  (stableSortBy idLe (valuesOf st.users)).take 10

/-- Strict ranking order: higher points first, ties by strictly smaller
id. Used to state that a ranking is uniquely determined. -/
def UserBefore (a b : User) : Prop :=
  b.points < a.points ∨ (a.points = b.points ∧ strLt a.id b.id)

instance : IsAntisymm User UserBefore where
  antisymm a b hab hba := by
    rcases hab with h1 | ⟨h1, h1'⟩ <;> rcases hba with h2 | ⟨h2, h2'⟩
    · exact absurd h1 (lt_asymm h2)
    · exact absurd h1 (by simp [h2])
    · exact absurd h2 (by simp [h1])
    · exact absurd (lt_trans h1' h2') (lt_irrefl _)

/-- Well-formedness of the users store: keys strictly ascending (a
`StableBTreeMap` is key-ordered with unique keys) and every record stored
under its own id (handlers always insert at `user.id`). -/
def UsersWF (st : State) : Prop :=
  st.users.Pairwise (fun p q => strLt p.1 q.1) ∧ ∀ p ∈ st.users, p.2.id = p.1

/-- Points of a stored user. -/
def userPoints (st : State) (uid : String) : Option Int :=
  (mapGet uid st.users).map User.points

/-- Participants of a stored challenge (empty when absent). -/
def challengeParticipants (st : State) (cid : String) : List String :=
  match mapGet cid st.challenges with
  | some c => c.participants
  | none => []

/-- Number of stored follow edges with the given direction. -/
def followEdgeCount (st : State) (a b : String) : Nat :=
  ((valuesOf st.follows).filter
      (fun f => f.followerId == a && f.followingId == b)).length

/-- Number of stored users with the given email. -/
def emailCount (st : State) (e : String) : Nat :=
  ((valuesOf st.users).filter (fun u => u.email == e)).length

/-- One mutating request of either revision, with the nondeterministic
fresh id / clock instant made explicit. -/
inductive Op where
  | reg (freshId : String) (now : Nat) (name email : String)
  | act (freshId : String) (now : Nat) (userId ty : String) (dur : Int)
      (date : String)
  | chal (freshId : String) (now : Nat) (creatorId title descr : String)
  | joinA (challengeId userId : String)
  | joinB (challengeId userId : String)
  | followA (freshId : String) (now : Nat) (followerId followingId : String)
  | followB (freshId : String) (now : Nat) (followerId followingId : String)
deriving DecidableEq, Repr

/-- Run one request; an error response leaves the stores as they were. -/
def runOp (op : Op) (st : State) : State :=
  let r : Except Err State :=
    match op with
    | .reg f n nm em => register f n nm em st
    | .act f n u t d dt => recordActivity f n u t d dt st
    | .chal f n c t d => createChallenge f n c t d st
    | .joinA c u => joinV0 c u st
    | .joinB c u => joinV1 c u st
    | .followA f n a b => followV0 f n a b st
    | .followB f n a b => followV1 f n a b st
  match r with
  | .ok st' => st'
  | .error _ => st

/-- Run a sequence of requests. -/
def runOps (ops : List Op) (st : State) : State :=
  ops.foldl (fun s op => runOp op s) st

/-- One activity-recording input (claim C3): fresh id, clock instant,
type, duration, date. -/
structure ActIn where
  fresh : String
  now : Nat
  ty : String
  dur : Int
  date : String
deriving DecidableEq, Repr

/-- Record a sequence of activities for one user (failed recordings
leave the state unchanged, as in `runOp`). -/
def recordMany (uid : String) (rs : List ActIn) (st : State) : State :=
  rs.foldl
    (fun s r =>
      match recordActivity r.fresh r.now uid r.ty r.dur r.date s with
      | .ok s' => s'
      | .error _ => s)
    st

/-- Two registered users: Bob is created first but his id `"ub"` sorts
after Alice's `"ua"`, so creation order and key order disagree. -/
def demoUsers : State :=
  runOps [.reg "ub" 1 "Bob" "b@x.com", .reg "ua" 2 "Alice" "a@x.com"]
    emptyState

/-- Both demo users brought to 30 points by one activity each. -/
def demoTie : State :=
  runOps [.act "t1" 3 "ub" "run" 30 "d1", .act "t2" 4 "ua" "run" 30 "d2"]
    demoUsers

/-- A challenge `"ch1"` created by Alice, not yet joined by anyone. -/
def demoChal : State := runOp (.chal "ch1" 3 "ua" "T" "D") demoUsers

/-- The challenge `"ch1"` after Alice (`"ua"`) has joined it once. -/
def demoJoin : State := runOp (.joinB "ch1" "ua") demoChal

/-- The state after V0 lets Alice join `"ch1"` a second time. -/
def demoJoin2 : State := runOp (.joinA "ch1" "ua") demoJoin

/-- A follow edge from Alice (`"ua"`) to Bob (`"ub"`). -/
def demoFollow : State := runOp (.followB "f1" 4 "ua" "ub") demoUsers

/-- The state after V0 lets Alice follow Bob a second time. -/
def demoFollow2 : State := runOp (.followA "f2" 5 "ua" "ub") demoFollow

/-- A single registered user with 0 points. -/
def demoReg : State := runOp (.reg "ua" 1 "Alice" "a@x.com") emptyState

/-- The single user after recording an activity of duration -30. -/
def demoNeg : State := runOp (.act "a1" 2 "ua" "run" (-30) "d1") demoReg

/-- Store growth: every key stored in `s` is still stored in `t`
(claim C10 compares the id sets of all four stores). -/
def StoreLE (s t : State) : Prop :=
  keysOf s.users ⊆ keysOf t.users ∧
    keysOf s.activities ⊆ keysOf t.activities ∧
      keysOf s.challenges ⊆ keysOf t.challenges ∧
        keysOf s.follows ⊆ keysOf t.follows

theorem mapGet_insert_self (k : String) (v : α) (m : List (String × α)) :
    mapGet k (mapInsert k v m) = some v := by
  induction m with
  | nil => simp [mapInsert, mapGet]
  | cons p rest ih =>
    obtain ⟨k', v'⟩ := p
    by_cases h1 : strLt k k'
    · simp [mapInsert, h1, mapGet]
    · by_cases h2 : k = k'
      · subst h2; simp [mapInsert, h1, mapGet]
      · simp [mapInsert, h1, h2, mapGet, ih]

theorem mapGet_insert_ne {j k : String} (h : j ≠ k) (v : α)
    (m : List (String × α)) :
    mapGet j (mapInsert k v m) = mapGet j m := by
  induction m with
  | nil => simp [mapInsert, mapGet, h]
  | cons p rest ih =>
    obtain ⟨k', v'⟩ := p
    by_cases h1 : strLt k k'
    · simp [mapInsert, h1, mapGet, h]
    · by_cases h2 : k = k'
      · subst h2; simp [mapInsert, h1, mapGet, h]
      · by_cases h3 : j = k'
        · simp [mapInsert, h1, h2, mapGet, h3]
        · simp [mapInsert, h1, h2, mapGet, h3, ih]

theorem keysOf_subset_mapInsert (k : String) (v : α) (m : List (String × α)) :
    keysOf m ⊆ keysOf (mapInsert k v m) := by
  induction m with
  | nil => intro a ha; simp [keysOf] at ha
  | cons p rest ih =>
    obtain ⟨k', v'⟩ := p
    intro a ha
    rw [show keysOf ((k', v') :: rest) = k' :: keysOf rest from rfl,
      List.mem_cons] at ha
    by_cases h1 : strLt k k'
    · rw [mapInsert, if_pos h1,
        show keysOf ((k, v) :: (k', v') :: rest) = k :: k' :: keysOf rest
          from rfl]
      rcases ha with ha | ha
      · subst ha; exact List.mem_cons_of_mem _ (List.mem_cons_self _ _)
      · exact List.mem_cons_of_mem _ (List.mem_cons_of_mem _ ha)
    · by_cases h2 : k = k'
      · subst h2
        rw [mapInsert, if_neg h1, if_pos rfl,
          show keysOf ((k, v) :: rest) = k :: keysOf rest from rfl]
        rcases ha with ha | ha
        · subst ha; exact List.mem_cons_self _ _
        · exact List.mem_cons_of_mem _ ha
      · rw [mapInsert, if_neg h1, if_neg h2,
          show keysOf ((k', v') :: mapInsert k v rest)
            = k' :: keysOf (mapInsert k v rest) from rfl]
        rcases ha with ha | ha
        · subst ha; exact List.mem_cons_self _ _
        · exact List.mem_cons_of_mem _ (ih ha)

theorem mapGet_eq_none_iff {k : String} {m : List (String × α)} :
    mapGet k m = none ↔ k ∉ keysOf m := by
  induction m with
  | nil => simp [mapGet, keysOf]
  | cons p rest ih =>
    obtain ⟨k', v'⟩ := p
    by_cases h : k = k'
    · subst h; simp [mapGet, keysOf]
    · simp [mapGet, keysOf, h, ih]

theorem mapInsert_length_of_get_none {k : String} {m : List (String × α)}
    (v : α) (h : mapGet k m = none) :
    (mapInsert k v m).length = m.length + 1 := by
  induction m with
  | nil => simp [mapInsert]
  | cons p rest ih =>
    obtain ⟨k', v'⟩ := p
    rw [mapGet] at h
    by_cases h2 : k = k'
    · simp [h2] at h
    · simp [h2] at h
      by_cases h1 : strLt k k'
      · simp [mapInsert, h1]
      · simp [mapInsert, h1, h2, ih h]

theorem storeLE_refl (s : State) : StoreLE s s :=
  ⟨List.Subset.refl _, List.Subset.refl _, List.Subset.refl _,
    List.Subset.refl _⟩

theorem register_ok_cases {f nm em : String} {n : Nat} {st st' : State}
    (h : register f n nm em st = .ok st') :
    st' = { st with users := mapInsert f ⟨f, nm, em, 0, n⟩ st.users } := by
  unfold register at h
  split at h
  · exact absurd h (by simp)
  · split at h
    · split at h
      · exact absurd h (by simp)
      · injection h with h; exact h.symm
    · exact absurd h (by simp)

theorem recordActivity_ok_cases {f uid ty dt : String} {n : Nat} {d : Int}
    {st st' : State} (h : recordActivity f n uid ty d dt st = .ok st') :
    ∃ u, mapGet uid st.users = some u ∧
      st' = { st with
                activities :=
                  mapInsert f ⟨f, uid, ty, d, dt, n⟩ st.activities,
                users :=
                  mapInsert u.id { u with points := u.points + d } st.users } := by
  unfold recordActivity at h
  split at h
  · exact absurd h (by simp)
  · split at h
    · exact absurd h (by simp)
    · next u hu => exact ⟨u, hu, by injection h with h; exact h.symm⟩

theorem createChallenge_ok_cases {f cr ti de : String} {n : Nat}
    {st st' : State} (h : createChallenge f n cr ti de st = .ok st') :
    st' = { st with
              challenges :=
                mapInsert f ⟨f, cr, ti, de, [], n⟩ st.challenges } := by
  unfold createChallenge at h
  split at h
  · exact absurd h (by simp)
  · split at h
    · exact absurd h (by simp)
    · injection h with h; exact h.symm

theorem joinV0_ok_cases {cid uid : String} {st st' : State}
    (h : joinV0 cid uid st = .ok st') :
    ∃ c, mapGet cid st.challenges = some c ∧
      st' = { st with
                challenges :=
                  mapInsert c.id
                    { c with participants := c.participants ++ [uid] }
                    st.challenges } := by
  unfold joinV0 at h
  split at h
  · exact absurd h (by simp)
  · split at h
    · exact absurd h (by simp)
    · next c0 hc0 =>
      split at h
      · exact absurd h (by simp)
      · split at h
        · exact absurd h (by simp)
        · next c hc =>
          injection hc with hc
          subst hc
          exact ⟨c0, hc0, by injection h with h; exact h.symm⟩

theorem joinV1_ok_cases {cid uid : String} {st st' : State}
    (h : joinV1 cid uid st = .ok st') :
    ∃ c, mapGet cid st.challenges = some c ∧ uid ∉ c.participants ∧
      st' = { st with
                challenges :=
                  mapInsert c.id
                    { c with participants := c.participants ++ [uid] }
                    st.challenges } := by
  unfold joinV1 at h
  split at h
  · exact absurd h (by simp)
  · split at h
    · exact absurd h (by simp)
    · next c hc =>
      split at h
      · exact absurd h (by simp)
      · split at h
        · exact absurd h (by simp)
        · next hmem =>
          exact ⟨c, hc, hmem, by injection h with h; exact h.symm⟩

theorem followV0_ok_cases {f a b : String} {n : Nat} {st st' : State}
    (h : followV0 f n a b st = .ok st') :
    st' = { st with follows := mapInsert f ⟨f, a, b, n⟩ st.follows } := by
  unfold followV0 at h
  split at h
  · exact absurd h (by simp)
  · split at h
    · exact absurd h (by simp)
    · split at h
      · exact absurd h (by simp)
      · split at h
        · exact absurd h (by simp)
        · injection h with h; exact h.symm

theorem followV1_ok_cases {f a b : String} {n : Nat} {st st' : State}
    (h : followV1 f n a b st = .ok st') :
    st' = { st with follows := mapInsert f ⟨f, a, b, n⟩ st.follows } := by
  unfold followV1 at h
  split at h
  · exact absurd h (by simp)
  · split at h
    · exact absurd h (by simp)
    · split at h
      · exact absurd h (by simp)
      · split at h
        · exact absurd h (by simp)
        · split at h
          · exact absurd h (by simp)
          · injection h with h; exact h.symm

/-- Claim C10: no operation exposed by either revision removes a record:
after any request, the key (id) set of each of the four stores is a
superset of what it was before — no handler ever calls `remove`. -/
theorem runOp_removes_nothing (op : Op) (st : State) :
    StoreLE st (runOp op st) := by
  have husers : ∀ (k : String) (v : User),
      StoreLE st { st with users := mapInsert k v st.users } :=
    fun k v =>
      ⟨keysOf_subset_mapInsert k v st.users, List.Subset.refl _,
        List.Subset.refl _, List.Subset.refl _⟩
  have hch : ∀ (k : String) (v : Challenge),
      StoreLE st { st with challenges := mapInsert k v st.challenges } :=
    fun k v =>
      ⟨List.Subset.refl _, List.Subset.refl _,
        keysOf_subset_mapInsert k v st.challenges, List.Subset.refl _⟩
  have hfo : ∀ (k : String) (v : Follow),
      StoreLE st { st with follows := mapInsert k v st.follows } :=
    fun k v =>
      ⟨List.Subset.refl _, List.Subset.refl _, List.Subset.refl _,
        keysOf_subset_mapInsert k v st.follows⟩
  cases op with
  | reg f n nm em =>
    show StoreLE st (match register f n nm em st with
      | .ok st' => st' | .error _ => st)
    cases hr : register f n nm em st with
    | error e => exact storeLE_refl st
    | ok st' => rw [register_ok_cases hr]; exact husers _ _
  | act f n uid ty d dt =>
    show StoreLE st (match recordActivity f n uid ty d dt st with
      | .ok st' => st' | .error _ => st)
    cases hr : recordActivity f n uid ty d dt st with
    | error e => exact storeLE_refl st
    | ok st' =>
      obtain ⟨u, _, hshape⟩ := recordActivity_ok_cases hr
      rw [hshape]
      exact ⟨keysOf_subset_mapInsert _ _ st.users,
        keysOf_subset_mapInsert _ _ st.activities,
        List.Subset.refl _, List.Subset.refl _⟩
  | chal f n cr ti de =>
    show StoreLE st (match createChallenge f n cr ti de st with
      | .ok st' => st' | .error _ => st)
    cases hr : createChallenge f n cr ti de st with
    | error e => exact storeLE_refl st
    | ok st' => rw [createChallenge_ok_cases hr]; exact hch _ _
  | joinA cid uid =>
    show StoreLE st (match joinV0 cid uid st with
      | .ok st' => st' | .error _ => st)
    cases hr : joinV0 cid uid st with
    | error e => exact storeLE_refl st
    | ok st' =>
      obtain ⟨c, _, hshape⟩ := joinV0_ok_cases hr
      rw [hshape]; exact hch _ _
  | joinB cid uid =>
    show StoreLE st (match joinV1 cid uid st with
      | .ok st' => st' | .error _ => st)
    cases hr : joinV1 cid uid st with
    | error e => exact storeLE_refl st
    | ok st' =>
      obtain ⟨c, _, _, hshape⟩ := joinV1_ok_cases hr
      rw [hshape]; exact hch _ _
  | followA f n a b =>
    show StoreLE st (match followV0 f n a b st with
      | .ok st' => st' | .error _ => st)
    cases hr : followV0 f n a b st with
    | error e => exact storeLE_refl st
    | ok st' => rw [followV0_ok_cases hr]; exact hfo _ _
  | followB f n a b =>
    show StoreLE st (match followV1 f n a b st with
      | .ok st' => st' | .error _ => st)
    cases hr : followV1 f n a b st with
    | error e => exact storeLE_refl st
    | ok st' => rw [followV1_ok_cases hr]; exact hfo _ _

/-- Claim C6 (code bug in both revisions): the duration check is a JS
falsy test, so `0` is rejected as invalid input, but a negative duration
passes validation: recording duration -30 for a fresh user succeeds,
inserts the activity, and adds -30 to the user's points. -/
theorem recordActivity_negative_duration_accepted :
    recordActivity "a1" 2 "ua" "run" (-30) "d1" demoReg = Except.ok demoNeg ∧
    (valuesOf demoNeg.activities).length = 1 ∧
    userPoints demoNeg "ua" = some (-30) ∧
    recordActivity "a1" 2 "ua" "run" 0 "d1" demoReg =
      Except.error Err.invalidInput :=
  ⟨by decide, by decide, by decide, by decide⟩

/-- Claim C7 (code bug): points are not non-negative in every reachable
state: registering a user and then recording an activity with duration
-30 (which validation accepts) drives the user's points to -30. -/
theorem points_negative_reachable :
    userPoints
        (runOps
          [.reg "ua" 1 "Alice" "a@x.com", .act "a1" 2 "ua" "run" (-30) "d1"]
          emptyState)
        "ua" = some (-30) ∧ (-30 : Int) < 0 :=
  ⟨by decide, by decide⟩

/-- Claim C8 counterexample: in the part_000 revision the self-follow
check runs before the existence checks, so `follow(A, A)` for a user id
that is not in the store reports `SelfFollow`, not a not-found error as
the claim states. -/
theorem followV1_selfFollow_before_existence :
    followV1 "f1" 0 "zz" "zz" emptyState = Except.error Err.selfFollow ∧
    mapGet "zz" emptyState.users = none :=
  ⟨by decide, by decide⟩

/-- Claim C8 as amended: the part_000 revision checks, in order, input
presence, self-follow, follower existence, following existence, and the
duplicate-edge scan (so a nonexistent self-follow reports `SelfFollow`);
the index.ts revision checks follower existence, then self-follow, then
following existence, and has no duplicate-edge scan at all (so a
nonexistent self-follow there reports not-found). -/
theorem follow_error_precedence :
    (∀ (st : State) (f : String) (n : Nat) (a : String), a ≠ "" →
        followV1 f n a a st = .error .selfFollow) ∧
    (∀ (st : State) (f : String) (n : Nat) (a b : String),
        a ≠ "" → b ≠ "" → a ≠ b → mapGet a st.users = none →
        followV1 f n a b st = .error .followerNotFound) ∧
    (∀ (st : State) (f : String) (n : Nat) (a b : String) (u : User),
        a ≠ "" → b ≠ "" → a ≠ b → mapGet a st.users = some u →
        mapGet b st.users = none →
        followV1 f n a b st = .error .followingNotFound) ∧
    (∀ (st : State) (f : String) (n : Nat) (a b : String) (u v : User),
        a ≠ "" → b ≠ "" → a ≠ b → mapGet a st.users = some u →
        mapGet b st.users = some v →
        (valuesOf st.follows).any
            (fun fl => fl.followerId == a && fl.followingId == b) = true →
        followV1 f n a b st = .error .alreadyFollowing) ∧
    (∀ (st : State) (f : String) (n : Nat) (a : String), a ≠ "" →
        mapGet a st.users = none → followV0 f n a a st = .error .notFound) ∧
    (∀ (st : State) (f : String) (n : Nat) (a : String) (u : User), a ≠ "" →
        mapGet a st.users = some u →
        followV0 f n a a st = .error .selfFollow) := by
  refine ⟨?_, ?_, ?_, ?_, ?_, ?_⟩
  · intro st f n a ha
    simp [followV1, ha]
  · intro st f n a b ha hb hab hnone
    simp [followV1, ha, hb, hab, hnone]
  · intro st f n a b u ha hb hab hu hnone
    simp [followV1, ha, hb, hab, hu, hnone]
  · intro st f n a b u v ha hb hab hu hv hany
    simp [followV1, ha, hb, hab, hu, hv, hany]
  · intro st f n a ha hnone
    simp [followV0, ha, hnone]
  · intro st f n a u ha hu
    simp [followV0, ha, hu]

/-- Witness for the amended claim C8, at concrete stores. -/
theorem follow_error_precedence_witness :
    followV1 "f9" 9 "ua" "ua" demoUsers = Except.error Err.selfFollow ∧
    followV1 "f9" 9 "zz" "zw" demoUsers =
      Except.error Err.followerNotFound ∧
    followV1 "f9" 9 "ua" "zw" demoUsers =
      Except.error Err.followingNotFound ∧
    followV1 "f9" 9 "ua" "ub" demoFollow =
      Except.error Err.alreadyFollowing ∧
    followV0 "f9" 9 "zz" "zz" demoUsers = Except.error Err.notFound ∧
    followV0 "f9" 9 "ua" "ua" demoUsers = Except.error Err.selfFollow := by
  refine ⟨follow_error_precedence.1 demoUsers "f9" 9 "ua" (by decide),
    follow_error_precedence.2.1 demoUsers "f9" 9 "zz" "zw" (by decide)
      (by decide) (by decide) (by decide),
    follow_error_precedence.2.2.1 demoUsers "f9" 9 "ua" "zw"
      ⟨"ua", "Alice", "a@x.com", 0, 2⟩ (by decide) (by decide) (by decide)
      (by decide) (by decide),
    follow_error_precedence.2.2.2.1 demoFollow "f9" 9 "ua" "ub"
      ⟨"ua", "Alice", "a@x.com", 0, 2⟩ ⟨"ub", "Bob", "b@x.com", 0, 1⟩
      (by decide) (by decide) (by decide) (by decide) (by decide) (by decide),
    follow_error_precedence.2.2.2.2.1 demoUsers "f9" 9 "zz" (by decide)
      (by decide),
    follow_error_precedence.2.2.2.2.2 demoUsers "f9" 9 "ua"
      ⟨"ua", "Alice", "a@x.com", 0, 2⟩ (by decide) (by decide)⟩

theorem mem_valuesOf_mapInsert {x : α} {k : String} {v : α}
    {m : List (String × α)} (hx : x ∈ valuesOf (mapInsert k v m)) :
    x = v ∨ x ∈ valuesOf m := by
  induction m with
  | nil => simpa [mapInsert, valuesOf] using hx
  | cons p rest ih =>
    obtain ⟨k', v'⟩ := p
    by_cases h1 : strLt k k'
    · rw [mapInsert, if_pos h1] at hx
      simp [valuesOf] at hx ⊢
      tauto
    · by_cases h2 : k = k'
      · rw [mapInsert, if_neg h1, if_pos h2] at hx
        simp [valuesOf] at hx ⊢
        tauto
      · rw [mapInsert, if_neg h1, if_neg h2] at hx
        simp [valuesOf] at hx ⊢
        rcases hx with hx | hx
        · tauto
        · rcases ih (by simpa [valuesOf] using hx) with h | h
          · tauto
          · simp [valuesOf] at h
            tauto

theorem valuesOf_mapInsert_perm_of_fresh {k : String}
    {m : List (String × α)} (h : mapGet k m = none) (v : α) :
    List.Perm (valuesOf (mapInsert k v m)) (v :: valuesOf m) := by
  induction m with
  | nil => simp [mapInsert, valuesOf]
  | cons p rest ih =>
    obtain ⟨k', v'⟩ := p
    rw [mapGet] at h
    by_cases h2 : k = k'
    · simp [h2] at h
    · simp [h2] at h
      by_cases h1 : strLt k k'
      · rw [mapInsert, if_pos h1]
        exact List.Perm.refl _
      · rw [mapInsert, if_neg h1, if_neg h2]
        exact ((ih h).cons v').trans (List.Perm.swap v v' _)

theorem filter_length_mapInsert_fresh {k : String} {m : List (String × α)}
    (h : mapGet k m = none) (e : α) (p : α → Bool) :
    ((valuesOf (mapInsert k e m)).filter p).length
      = ((valuesOf m).filter p).length + (if p e then 1 else 0) := by
  have hperm := (valuesOf_mapInsert_perm_of_fresh h e).filter p
  rw [hperm.length_eq, List.filter_cons]
  cases hp : p e <;> simp [hp]

/-- Claim C1 counterexample: in the index.ts revision, joining a
challenge the user has already joined does not fail with AlreadyJoined;
it succeeds and appends a duplicate id (participants grow by 1). -/
theorem joinV0_duplicate_join_succeeds :
    "ua" ∈ challengeParticipants demoJoin "ch1" ∧
    joinV0 "ch1" "ua" demoJoin = Except.ok demoJoin2 ∧
    challengeParticipants demoJoin2 "ch1" = ["ua", "ua"] ∧
    (challengeParticipants demoJoin2 "ch1").length
      = (challengeParticipants demoJoin "ch1").length + 1 :=
  ⟨by decide, by decide, by decide, by decide⟩

/-- Claim C1 as amended: in the part_000 revision, join of an existing
user into an existing challenge fails with AlreadyJoined when the id is
already a participant (and, the embedding returning an error, writes
nothing) and otherwise appends exactly that id (length +1); in the
index.ts revision the join appends unconditionally. -/
theorem join_semantics (st : State) (cid uid : String) (c : Challenge)
    (u : User) (huid : uid ≠ "") (hc : mapGet cid st.challenges = some c)
    (hu : mapGet uid st.users = some u) (hcid : c.id = cid) :
    (uid ∈ c.participants → joinV1 cid uid st = .error .alreadyJoined) ∧
    (uid ∉ c.participants →
      ∃ st', joinV1 cid uid st = .ok st' ∧
        challengeParticipants st' cid = c.participants ++ [uid] ∧
        (challengeParticipants st' cid).length
          = (challengeParticipants st cid).length + 1) ∧
    (∃ st', joinV0 cid uid st = .ok st' ∧
      challengeParticipants st' cid = c.participants ++ [uid]) := by
  refine ⟨?_, ?_, ?_⟩
  · intro hmem
    simp [joinV1, huid, hc, hu, hmem]
  · intro hmem
    refine ⟨{ st with
                challenges :=
                  mapInsert c.id
                    { c with participants := c.participants ++ [uid] }
                    st.challenges }, ?_, ?_, ?_⟩
    · simp [joinV1, huid, hc, hu, hmem]
    · simp only [challengeParticipants]
      rw [hcid, mapGet_insert_self]
    · simp only [challengeParticipants]
      rw [hcid, mapGet_insert_self, hc]
      simp
  · refine ⟨{ st with
                challenges :=
                  mapInsert c.id
                    { c with participants := c.participants ++ [uid] }
                    st.challenges }, ?_, ?_⟩
    · simp [joinV0, huid, hc, hu]
    · simp only [challengeParticipants]
      rw [hcid, mapGet_insert_self]

/-- Witness for the amended claim C1: a repeated join is rejected by the
part_000 revision, a first join appends the id there, and the index.ts
revision appends a duplicate. -/
theorem join_semantics_witness :
    joinV1 "ch1" "ua" demoJoin = Except.error Err.alreadyJoined ∧
    (∃ st', joinV1 "ch1" "ua" demoChal = Except.ok st' ∧
      challengeParticipants st' "ch1" = ["ua"] ∧
      (challengeParticipants st' "ch1").length
        = (challengeParticipants demoChal "ch1").length + 1) ∧
    (∃ st', joinV0 "ch1" "ua" demoJoin = Except.ok st' ∧
      challengeParticipants st' "ch1" = ["ua"] ++ ["ua"]) := by
  refine ⟨(join_semantics demoJoin "ch1" "ua"
      ⟨"ch1", "ua", "T", "D", ["ua"], 3⟩ ⟨"ua", "Alice", "a@x.com", 0, 2⟩
      (by decide) (by decide) (by decide) (by decide)).1 (by decide),
    (join_semantics demoChal "ch1" "ua"
      ⟨"ch1", "ua", "T", "D", [], 3⟩ ⟨"ua", "Alice", "a@x.com", 0, 2⟩
      (by decide) (by decide) (by decide) (by decide)).2.1 (by decide),
    (join_semantics demoJoin "ch1" "ua"
      ⟨"ch1", "ua", "T", "D", ["ua"], 3⟩ ⟨"ua", "Alice", "a@x.com", 0, 2⟩
      (by decide) (by decide) (by decide) (by decide)).2.2⟩

/-- Claim C2 counterexample: in the index.ts revision a second
`follow(A, B)` with an identical existing edge does not fail with
AlreadyFollowing; it succeeds and stores a second identical edge. -/
theorem followV0_duplicate_follow_succeeds :
    followEdgeCount demoFollow "ua" "ub" = 1 ∧
    followV0 "f2" 5 "ua" "ub" demoFollow = Except.ok demoFollow2 ∧
    followEdgeCount demoFollow2 "ua" "ub" = 2 :=
  ⟨by decide, by decide, by decide⟩

/-- Claim C2 as amended: self-follows are rejected by both revisions;
in the part_000 revision a duplicate directed edge is rejected with
AlreadyFollowing, a fresh edge is inserted (edge count +1), and the
reverse edge can then still be created; the index.ts revision inserts
unconditionally (no duplicate check), growing the edge count even when
the edge already exists. -/
theorem follow_semantics (st : State) (f : String) (n : Nat)
    (a b : String) (u v : User) (ha : a ≠ "") (hb : b ≠ "") (hab : a ≠ b)
    (hu : mapGet a st.users = some u) (hv : mapGet b st.users = some v)
    (hf : mapGet f st.follows = none) :
    (followV1 f n a a st = .error .selfFollow ∧
      followV0 f n a a st = .error .selfFollow) ∧
    ((∃ fl ∈ valuesOf st.follows,
        fl.followerId = a ∧ fl.followingId = b) →
      followV1 f n a b st = .error .alreadyFollowing) ∧
    ((∀ fl ∈ valuesOf st.follows,
        ¬(fl.followerId = a ∧ fl.followingId = b)) →
      ∃ st', followV1 f n a b st = .ok st' ∧
        followEdgeCount st' a b = followEdgeCount st a b + 1 ∧
        ((∀ fl ∈ valuesOf st.follows,
            ¬(fl.followerId = b ∧ fl.followingId = a)) →
          ∀ (f2 : String) (n2 : Nat), ∃ st'',
            followV1 f2 n2 b a st' = .ok st'')) ∧
    (∃ st', followV0 f n a b st = .ok st' ∧
      followEdgeCount st' a b = followEdgeCount st a b + 1) := by
  refine ⟨⟨?_, ?_⟩, ?_, ?_, ?_⟩
  · simp [followV1, ha]
  · simp [followV0, ha, hu]
  · intro hex
    have hany : (valuesOf st.follows).any
        (fun fl => fl.followerId == a && fl.followingId == b) = true := by
      obtain ⟨fl, hmem, h1, h2⟩ := hex
      exact List.any_eq_true.mpr ⟨fl, hmem, by simp [h1, h2]⟩
    simp [followV1, ha, hb, hab, hu, hv, hany]
  · intro hnone
    have hany : (valuesOf st.follows).any
        (fun fl => fl.followerId == a && fl.followingId == b) = false := by
      rw [Bool.eq_false_iff]
      intro hcontra
      obtain ⟨fl, hmem, hp⟩ := List.any_eq_true.mp hcontra
      rw [Bool.and_eq_true, beq_iff_eq, beq_iff_eq] at hp
      exact hnone fl hmem hp
    refine ⟨{ st with follows := mapInsert f ⟨f, a, b, n⟩ st.follows },
      ?_, ?_, ?_⟩
    · simp [followV1, ha, hb, hab, hu, hv, hany]
    · show ((valuesOf (mapInsert f ⟨f, a, b, n⟩ st.follows)).filter
          (fun fl => fl.followerId == a && fl.followingId == b)).length = _
      rw [filter_length_mapInsert_fresh hf]
      simp [followEdgeCount]
    · intro hrev f2 n2
      have hany2 : (valuesOf (mapInsert f ⟨f, a, b, n⟩ st.follows)).any
          (fun fl => fl.followerId == b && fl.followingId == a) = false := by
        rw [Bool.eq_false_iff]
        intro hcontra
        obtain ⟨fl, hmem, hp⟩ := List.any_eq_true.mp hcontra
        rw [Bool.and_eq_true, beq_iff_eq, beq_iff_eq] at hp
        rcases mem_valuesOf_mapInsert hmem with rfl | hmem'
        · exact hab hp.1
        · exact hrev fl hmem' hp
      refine ⟨{ st with
                  follows :=
                    mapInsert f2 ⟨f2, b, a, n2⟩
                      (mapInsert f ⟨f, a, b, n⟩ st.follows) }, ?_⟩
      simp [followV1, hb, ha, Ne.symm hab, hu, hv, hany2]
  · refine ⟨{ st with follows := mapInsert f ⟨f, a, b, n⟩ st.follows },
      ?_, ?_⟩
    · simp [followV0, ha, hb, hab, hu, hv]
    · show ((valuesOf (mapInsert f ⟨f, a, b, n⟩ st.follows)).filter
          (fun fl => fl.followerId == a && fl.followingId == b)).length = _
      rw [filter_length_mapInsert_fresh hf]
      simp [followEdgeCount]

/-- Witness for the amended claim C2, at concrete stores. -/
theorem follow_semantics_witness :
    (followV1 "f9" 9 "ua" "ua" demoFollow = Except.error Err.selfFollow ∧
      followV0 "f9" 9 "ua" "ua" demoFollow = Except.error Err.selfFollow) ∧
    followV1 "f9" 9 "ua" "ub" demoFollow =
      Except.error Err.alreadyFollowing ∧
    (∃ st', followV1 "f8" 8 "ua" "ub" demoUsers = Except.ok st' ∧
      followEdgeCount st' "ua" "ub"
        = followEdgeCount demoUsers "ua" "ub" + 1 ∧
      ((∀ fl ∈ valuesOf demoUsers.follows,
          ¬(fl.followerId = "ub" ∧ fl.followingId = "ua")) →
        ∀ (f2 : String) (n2 : Nat), ∃ st'',
          followV1 f2 n2 "ub" "ua" st' = Except.ok st'')) ∧
    (∃ st', followV0 "f9" 9 "ua" "ub" demoFollow = Except.ok st' ∧
      followEdgeCount st' "ua" "ub"
        = followEdgeCount demoFollow "ua" "ub" + 1) := by
  have t1 := follow_semantics demoFollow "f9" 9 "ua" "ub"
    ⟨"ua", "Alice", "a@x.com", 0, 2⟩ ⟨"ub", "Bob", "b@x.com", 0, 1⟩
    (by decide) (by decide) (by decide) (by decide) (by decide) (by decide)
  have t2 := follow_semantics demoUsers "f8" 8 "ua" "ub"
    ⟨"ua", "Alice", "a@x.com", 0, 2⟩ ⟨"ub", "Bob", "b@x.com", 0, 1⟩
    (by decide) (by decide) (by decide) (by decide) (by decide) (by decide)
  exact ⟨t1.1,
    t1.2.1 ⟨⟨"f1", "ua", "ub", 4⟩, by decide, by decide, by decide⟩,
    t2.2.2.1 (by decide),
    t1.2.2.2⟩

/-- Claim C3: over any sequence of valid activity recordings for an
existing user, points accumulate: the final balance is the starting
balance plus the sum of the recorded durations (for a single recording,
plus its duration). -/
theorem recordActivity_points_accumulate (rs : List ActIn) (st : State)
    (uid : String) (u : User) (huid : uid ≠ "")
    (hu : mapGet uid st.users = some u) (hid : u.id = uid)
    (hvalid : ∀ r ∈ rs, r.ty ≠ "" ∧ r.dur ≠ 0 ∧ r.date ≠ "") :
    userPoints (recordMany uid rs st) uid
      = some (u.points + (rs.map ActIn.dur).sum) := by
  induction rs generalizing st u with
  | nil => simp [recordMany, userPoints, hu]
  | cons r rs ih =>
    obtain ⟨hty, hdur, hdate⟩ := hvalid r (List.mem_cons_self _ _)
    have hstep : recordActivity r.fresh r.now uid r.ty r.dur r.date st
        = .ok { st with
                  activities :=
                    mapInsert r.fresh ⟨r.fresh, uid, r.ty, r.dur, r.date, r.now⟩
                      st.activities,
                  users :=
                    mapInsert u.id { u with points := u.points + r.dur }
                      st.users } := by
      simp [recordActivity, huid, hty, hdur, hdate, hu]
    have hfold : recordMany uid (r :: rs) st
        = recordMany uid rs
            { st with
                activities :=
                  mapInsert r.fresh ⟨r.fresh, uid, r.ty, r.dur, r.date, r.now⟩
                    st.activities,
                users :=
                  mapInsert u.id { u with points := u.points + r.dur }
                    st.users } := by
      simp [recordMany, hstep]
    rw [hfold, ih _ { u with points := u.points + r.dur }
      (by rw [hid]; exact mapGet_insert_self _ _ _) hid
      (fun q hq => hvalid q (List.mem_cons_of_mem _ hq))]
    simp [add_assoc]

/-- Witness for claim C3: two recordings of 30 and 20 minutes bring
Alice from 0 to 50 points. -/
theorem recordActivity_points_accumulate_witness :
    userPoints
        (recordMany "ua"
          [⟨"a1", 3, "run", 30, "d1"⟩, ⟨"a2", 4, "swim", 20, "d2"⟩]
          demoUsers)
        "ua" = some 50 := by
  rw [recordActivity_points_accumulate
    [⟨"a1", 3, "run", 30, "d1"⟩, ⟨"a2", 4, "swim", 20, "d2"⟩] demoUsers
    "ua" ⟨"ua", "Alice", "a@x.com", 0, 2⟩ (by decide) (by decide)
    (by decide) (by decide)]
  decide

theorem email_filter_length_one {l : List User} {em : String} {u : User}
    (hu : u ∈ l) (hue : u.email = em)
    (hnodup : l.Pairwise (fun a b => a.email ≠ b.email)) :
    (l.filter (fun w => w.email == em)).length = 1 := by
  induction l with
  | nil => cases hu
  | cons x xs ih =>
    rw [List.pairwise_cons] at hnodup
    rcases List.mem_cons.mp hu with rfl | hu'
    · have hx : (u.email == em) = true := by simp [hue]
      rw [List.filter_cons, if_pos hx]
      have hnil : xs.filter (fun w => w.email == em) = [] := by
        rw [List.filter_eq_nil_iff]
        intro w hw
        simp only [beq_iff_eq]
        intro heq
        exact hnodup.1 w hw (hue.trans heq.symm)
      simp [hnil]
    · have hx : ¬((x.email == em) = true) := by
        simp only [beq_iff_eq]
        intro heq
        exact hnodup.1 u hu' (heq.trans hue.symm)
      rw [List.filter_cons, if_neg hx]
      exact ih hu' hnodup.2

/-- Claim C5: when some stored user already carries the (syntactically
valid) email, a registration with that email fails with DuplicateEmail
(writing nothing, the embedding returning an error) and — the stores
satisfying the no-two-users-share-an-email invariant — exactly one
stored user carries that email afterwards. -/
theorem register_duplicate_email (st : State) (f : String) (n : Nat)
    (nm em : String) (hnm : nm ≠ "") (hem : validEmail em = true)
    (hx : ∃ u ∈ valuesOf st.users, u.email = em)
    (hnodup : (valuesOf st.users).Pairwise (fun a b => a.email ≠ b.email)) :
    register f n nm em st = .error .duplicateEmail ∧ emailCount st em = 1 := by
  have hem' : em ≠ "" := by
    intro hE
    rw [hE] at hem
    exact absurd hem (by decide)
  obtain ⟨u, hu, hue⟩ := hx
  have hany : (valuesOf st.users).any (fun w => w.email == em) = true :=
    List.any_eq_true.mpr ⟨u, hu, by simp [hue]⟩
  constructor
  · simp [register, hnm, hem', hem, hany]
  · exact email_filter_length_one hu hue hnodup

/-- Witness for claim C5: registering a second user with Alice's email
is rejected and Alice stays the only user with it. -/
theorem register_duplicate_email_witness :
    register "uc" 9 "Eve" "a@x.com" demoUsers
      = Except.error Err.duplicateEmail ∧
    emailCount demoUsers "a@x.com" = 1 :=
  register_duplicate_email demoUsers "uc" 9 "Eve" "a@x.com" (by decide)
    (by decide)
    ⟨⟨"ua", "Alice", "a@x.com", 0, 2⟩, by decide, by decide⟩
    (by decide)

/-- Claim C9: a successful activity recording changes nothing but the
one fresh activity entry and the recorded user's points: challenges and
follows are untouched, every other user and every other activity is
unchanged, the user keeps id, name, email and creation instant, and the
activities store grows by exactly one entry. -/
theorem recordActivity_frame (st : State) (f : String) (n : Nat)
    (uid ty dt : String) (d : Int) (u : User)
    (huid : uid ≠ "") (hty : ty ≠ "") (hd : d ≠ 0) (hdt : dt ≠ "")
    (hu : mapGet uid st.users = some u) (hid : u.id = uid)
    (hfresh : mapGet f st.activities = none) :
    ∃ st', recordActivity f n uid ty d dt st = .ok st' ∧
      st'.challenges = st.challenges ∧
      st'.follows = st.follows ∧
      mapGet uid st'.users = some { u with points := u.points + d } ∧
      (∀ k, k ≠ uid → mapGet k st'.users = mapGet k st.users) ∧
      mapGet f st'.activities = some ⟨f, uid, ty, d, dt, n⟩ ∧
      (∀ k, k ≠ f → mapGet k st'.activities = mapGet k st.activities) ∧
      st'.activities.length = st.activities.length + 1 := by
  refine ⟨{ st with
              activities := mapInsert f ⟨f, uid, ty, d, dt, n⟩ st.activities,
              users :=
                mapInsert u.id { u with points := u.points + d } st.users },
    ?_, rfl, rfl, ?_, ?_, ?_, ?_, ?_⟩
  · simp [recordActivity, huid, hty, hd, hdt, hu]
  · show mapGet uid (mapInsert u.id _ st.users) = _
    rw [hid]
    exact mapGet_insert_self _ _ _
  · intro k hk
    show mapGet k (mapInsert u.id _ st.users) = _
    rw [hid]
    exact mapGet_insert_ne hk _ _
  · exact mapGet_insert_self _ _ _
  · intro k hk
    exact mapGet_insert_ne hk _ _
  · exact mapInsert_length_of_get_none _ hfresh

/-- Witness for claim C9, at a concrete store. -/
theorem recordActivity_frame_witness :
    ∃ st', recordActivity "a9" 7 "ua" "run" 30 "d9" demoUsers
        = Except.ok st' ∧
      st'.challenges = demoUsers.challenges ∧
      st'.follows = demoUsers.follows ∧
      mapGet "ua" st'.users = some ⟨"ua", "Alice", "a@x.com", 0 + 30, 2⟩ ∧
      (∀ k, k ≠ "ua" → mapGet k st'.users = mapGet k demoUsers.users) ∧
      mapGet "a9" st'.activities
        = some ⟨"a9", "ua", "run", 30, "d9", 7⟩ ∧
      (∀ k, k ≠ "a9" →
        mapGet k st'.activities = mapGet k demoUsers.activities) ∧
      st'.activities.length = demoUsers.activities.length + 1 :=
  recordActivity_frame demoUsers "a9" 7 "ua" "run" "d9" 30
    ⟨"ua", "Alice", "a@x.com", 0, 2⟩ (by decide) (by decide) (by decide)
    (by decide) (by decide) (by decide) (by decide)

theorem strLt_irrefl (a : String) : ¬ strLt a a := lt_irrefl _

theorem strLt_asymm {a b : String} (h : strLt a b) : ¬ strLt b a :=
  lt_asymm h

theorem strLt_trans {a b c : String} (h1 : strLt a b) (h2 : strLt b c) :
    strLt a c := lt_trans h1 h2

theorem strLt_connex {a b : String} (h1 : ¬ strLt a b) (h2 : ¬ strLt b a) :
    a = b := by
  rcases lt_trichotomy a.data b.data with h | h | h
  · exact absurd h h1
  · cases a; cases b; exact congrArg String.mk h
  · exact absurd h h2

theorem insBy_perm (le : α → α → Bool) (x : α) (l : List α) :
    List.Perm (insBy le x l) (x :: l) := by
  induction l with
  | nil => exact List.Perm.refl _
  | cons y rest ih =>
    rw [insBy]
    by_cases h : le y x
    · rw [if_pos h]
      exact (ih.cons y).trans (List.Perm.swap x y rest)
    · rw [if_neg h]

theorem foldl_insBy_perm (le : α → α → Bool) :
    ∀ (l acc : List α),
      List.Perm (l.foldl (fun a x => insBy le x a) acc) (l ++ acc) := by
  intro l
  induction l with
  | nil => intro acc; exact List.Perm.refl _
  | cons x l ih =>
    intro acc
    rw [List.foldl_cons]
    refine (ih (insBy le x acc)).trans ?_
    refine (List.Perm.append_left l (insBy_perm le x acc)).trans ?_
    exact List.perm_middle

theorem stableSortBy_perm (le : α → α → Bool) (l : List α) :
    List.Perm (stableSortBy le l) l := by
  have h := foldl_insBy_perm le l []
  rw [List.append_nil] at h
  exact h

theorem insBy_pairwise {le : α → α → Bool} {S : α → α → Prop}
    (htot : ∀ a b, le a b = false → le b a = true)
    (htrans : ∀ a b c, le a b = true → le b c = true → le a c = true)
    (x : α) :
    ∀ (acc : List α),
      acc.Pairwise (fun a b => le a b = true ∧ (le b a = true → S a b)) →
      (∀ v ∈ acc, S v x) →
      (insBy le x acc).Pairwise
        (fun a b => le a b = true ∧ (le b a = true → S a b)) := by
  intro acc
  induction acc with
  | nil => intro _ _; simp [insBy]
  | cons y rest ih =>
    intro hacc hS
    rw [List.pairwise_cons] at hacc
    rw [insBy]
    by_cases h : le y x
    · rw [if_pos h, List.pairwise_cons]
      constructor
      · intro z hz
        rcases List.mem_cons.mp ((insBy_perm le x rest).mem_iff.mp hz)
          with rfl | hzr
        · exact ⟨h, fun _ => hS y (List.mem_cons_self _ _)⟩
        · exact hacc.1 z hzr
      · exact ih hacc.2 (fun v hv => hS v (List.mem_cons_of_mem _ hv))
    · rw [if_neg h]
      have hyxf : le y x = false := by simpa using h
      have hxy : le x y = true := htot y x hyxf
      rw [List.pairwise_cons]
      constructor
      · intro z hz
        rcases List.mem_cons.mp hz with rfl | hzr
        · exact ⟨hxy, fun hyx => absurd hyx h⟩
        · have hyz : le y z = true := (hacc.1 z hzr).1
          refine ⟨htrans x y z hxy hyz, ?_⟩
          intro hzx
          exact absurd (htrans y z x hyz hzx) h
      · rw [List.pairwise_cons]
        exact ⟨hacc.1, hacc.2⟩

theorem foldl_insBy_pairwise {le : α → α → Bool} {S : α → α → Prop}
    (htot : ∀ a b, le a b = false → le b a = true)
    (htrans : ∀ a b c, le a b = true → le b c = true → le a c = true) :
    ∀ (l acc : List α),
      acc.Pairwise (fun a b => le a b = true ∧ (le b a = true → S a b)) →
      (∀ v ∈ acc, ∀ u ∈ l, S v u) →
      l.Pairwise S →
      (l.foldl (fun a x => insBy le x a) acc).Pairwise
        (fun a b => le a b = true ∧ (le b a = true → S a b)) := by
  intro l
  induction l with
  | nil => intro acc hacc _ _; simpa using hacc
  | cons x l ih =>
    intro acc hacc hcross hl
    rw [List.pairwise_cons] at hl
    rw [List.foldl_cons]
    refine ih (insBy le x acc) ?_ ?_ hl.2
    · exact insBy_pairwise htot htrans x acc hacc
        (fun v hv => hcross v hv x (List.mem_cons_self _ _))
    · intro v hv u hu
      rcases List.mem_cons.mp ((insBy_perm le x acc).mem_iff.mp hv)
        with rfl | hv'
      · exact hl.1 u hu
      · exact hcross v hv' u (List.mem_cons_of_mem _ hu)

theorem stableSortBy_pairwise {le : α → α → Bool} {S : α → α → Prop}
    (htot : ∀ a b, le a b = false → le b a = true)
    (htrans : ∀ a b c, le a b = true → le b c = true → le a c = true)
    {l : List α} (hl : l.Pairwise S) :
    (stableSortBy le l).Pairwise
      (fun a b => le a b = true ∧ (le b a = true → S a b)) :=
  foldl_insBy_pairwise htot htrans l [] (by simp) (by simp) hl

theorem idLe_eq_true_iff {a b : User} :
    idLe a b = true ↔
      (b.points < a.points ∨ (b.points = a.points ∧ ¬ strLt b.id a.id)) := by
  simp [idLe, Bool.or_eq_true, Bool.and_eq_true, decide_eq_true_eq,
    Bool.not_eq_true', decide_eq_false_iff_not]

theorem jsSort_pairwise_userBefore {l : List User}
    (hl : l.Pairwise fun a b => strLt a.id b.id) :
    (jsSortByPointsDesc l).Pairwise UserBefore := by
  have htot : ∀ a b : User,
      (decide (b.points ≤ a.points)) = false →
        (decide (a.points ≤ b.points)) = true := by
    intro a b hab
    rw [decide_eq_false_iff_not] at hab
    exact decide_eq_true (le_of_not_le hab)
  have htrans : ∀ a b c : User,
      (decide (b.points ≤ a.points)) = true →
        (decide (c.points ≤ b.points)) = true →
          (decide (c.points ≤ a.points)) = true := by
    intro a b c h1 h2
    rw [decide_eq_true_eq] at h1 h2
    exact decide_eq_true (le_trans h2 h1)
  have h := stableSortBy_pairwise htot htrans hl
  refine h.imp ?_
  intro a b hab
  obtain ⟨h1, h2⟩ := hab
  rw [decide_eq_true_eq] at h1
  by_cases hlt : b.points < a.points
  · exact Or.inl hlt
  · have heq : a.points = b.points := le_antisymm (not_lt.mp hlt) h1
    exact Or.inr ⟨heq, h2 (decide_eq_true (le_of_eq heq))⟩

theorem idSort_pairwise_userBefore {l : List User}
    (hl : l.Pairwise fun a b => strLt a.id b.id) :
    (stableSortBy idLe l).Pairwise UserBefore := by
  have htot : ∀ a b : User, idLe a b = false → idLe b a = true := by
    intro a b h
    have h' : ¬ (b.points < a.points ∨
        (b.points = a.points ∧ ¬ strLt b.id a.id)) := by
      rw [← idLe_eq_true_iff, h]
      simp
    rw [idLe_eq_true_iff]
    push_neg at h'
    obtain ⟨h1, h2⟩ := h'
    rcases lt_or_eq_of_le h1 with hlt | heq
    · exact Or.inl hlt
    · exact Or.inr ⟨heq, strLt_asymm (h2 heq.symm)⟩
  have htrans : ∀ a b c : User,
      idLe a b = true → idLe b c = true → idLe a c = true := by
    intro a b c h1 h2
    rw [idLe_eq_true_iff] at h1 h2 ⊢
    rcases h1 with h1 | ⟨h1, h1'⟩ <;> rcases h2 with h2 | ⟨h2, h2'⟩
    · exact Or.inl (lt_trans h2 h1)
    · exact Or.inl (lt_of_le_of_lt (le_of_eq h2) h1)
    · exact Or.inl (lt_of_lt_of_le h2 (le_of_eq h1))
    · refine Or.inr ⟨h2.trans h1, ?_⟩
      intro hca
      by_cases hab : strLt a.id b.id
      · by_cases hbc : strLt b.id c.id
        · exact strLt_asymm (strLt_trans hab hbc) hca
        · have hbc' : b.id = c.id := strLt_connex hbc h2'
          rw [← hbc'] at hca
          exact h1' hca
      · have hab' : a.id = b.id := strLt_connex hab h1'
        by_cases hbc : strLt b.id c.id
        · rw [hab'] at hca
          exact h2' hca
        · have hbc' : b.id = c.id := strLt_connex hbc h2'
          rw [hab', hbc'] at hca
          exact strLt_irrefl _ hca
  have h := stableSortBy_pairwise htot htrans hl
  refine h.imp ?_
  intro a b hab
  obtain ⟨h1, h2⟩ := hab
  rw [idLe_eq_true_iff] at h1
  rcases h1 with h1 | ⟨h1, h1'⟩
  · exact Or.inl h1
  · by_cases hid : strLt a.id b.id
    · exact Or.inr ⟨h1.symm, hid⟩
    · have hba : idLe b a = true := by
        rw [idLe_eq_true_iff]
        exact Or.inr ⟨h1.symm, hid⟩
      exact Or.inr ⟨h1.symm, h2 hba⟩

theorem usersWF_values_pairwise {st : State} (h : UsersWF st) :
    (valuesOf st.users).Pairwise (fun a b => strLt a.id b.id) := by
  obtain ⟨hsort, hid⟩ := h
  have hmain : st.users.Pairwise (fun p q => strLt p.2.id q.2.id) := by
    refine hsort.imp_of_mem ?_
    intro p q hp hq hpq
    rw [hid p hp, hid q hq]
    exact hpq
  rw [valuesOf, List.pairwise_map]
  exact hmain

/-- Claim C4 counterexample: on a reachable store where creation order
disagrees with key order (Bob created first under the larger key),
the code's leaderboard differs from the spec's rank even at the default
parameters: the code breaks the 30-30 tie by enumeration (id) order and
returns Alice first, the claim's creation-order tie-break returns Bob
first. -/
theorem leaderboard_ne_rankSpec_defaults :
    leaderboard demoTie ≠ rankSpec 10 1 10 demoTie := by decide

/-- Claim C4 as amended: the index.ts leaderboard returns the first 10
users of the stable descending-points sort of `values()`; `values()`
enumerates in key order, so ties are broken by id (key) order, not
creation order, and the endpoint takes no size/page/limit parameters
(the window is always the fixed top 10). -/
theorem leaderboard_eq_rankAmended (st : State) (h : UsersWF st) :
    leaderboard st = rankAmended st := by
  have hvals := usersWF_values_pairwise h
  have hA : (jsSortByPointsDesc (valuesOf st.users)).Pairwise UserBefore :=
    jsSort_pairwise_userBefore hvals
  have hB : (stableSortBy idLe (valuesOf st.users)).Pairwise UserBefore :=
    idSort_pairwise_userBefore hvals
  have hperm : List.Perm (jsSortByPointsDesc (valuesOf st.users))
      (stableSortBy idLe (valuesOf st.users)) := by
    refine (stableSortBy_perm _ _).trans (stableSortBy_perm _ _).symm
  have heq := List.eq_of_perm_of_sorted hperm hA hB
  unfold leaderboard rankAmended
  rw [heq]

/-- Witness for the amended claim C4: on the tied demo store the
leaderboard equals the id-order tie-break ranking. -/
theorem leaderboard_eq_rankAmended_witness :
    leaderboard demoTie = rankAmended demoTie :=
  leaderboard_eq_rankAmended demoTie ⟨by decide, by decide⟩

end FitTrack
